import Mathlib

/-!
Shallow embedding of src/question_dependence.py (class QuestionDependence).

The program tests statistical independence between survey questions and a
target question with a chi-square test.  Pandas/NumPy/SciPy behaviour is
modelled exactly where the program relies on it:

* a cell of a categorical column is an optional character list
  (none models a NaN / missing value);
* the category set of a column is the sorted list of distinct non-missing
  values, as produced by astype('category');
* pd.crosstab of two categorical columns yields the full r x c grid of
  observed counts, rows and columns indexed by the category lists, counting
  only rows in which both values are present;
* the expected frequencies row*col/n are NumPy float divisions: when the
  grand total n is 0 every row marginal is 0 too, so each cell is the
  0/0 division, i.e. NaN.  A NaN is modelled as (none : Option Rat); all
  other arithmetic is exact rational arithmetic;
* NumPy comparisons against NaN are false (npLtB none m = false), and
  np.sum propagates NaN (optSum returns none when a summand is none);
* scipy.stats.chisquare(observed, expected, axis=None, ddof) computes the
  statistic over the flattened cells and the p-value from the chi-square
  distribution with k - 1 - ddof degrees of freedom, where k is the number
  of cells.  The continuous survival function itself is kept abstract as a
  parameter pvalue : Rat -> Int -> Option Rat (none models a NaN p-value);
  every theorem below holds for an arbitrary pvalue function.
-/

/-- A cell of a pandas column: none models NaN (a missing value). -/
abbrev Cell := Option (List Char)

/-- Verdict recorded for a tested question (the three lists of self.stats). -/
inductive Verdict
  | invalid
  | related
  | notRelated
deriving DecidableEq

/-- Which branch of QuestionDependence.run processed a question:
the single-choice branch calls analyze_question directly, the multi-choice
branch first calls convert_multi_to_single. -/
inductive Branch
  | single
  | multi
deriving DecidableEq

/-- Python str.strip(): drop leading and trailing whitespace
(question_dependence.py line 155, v.strip()). -/
def pyStrip (s : List Char) : List Char :=
  ((s.dropWhile Char.isWhitespace).reverse.dropWhile Char.isWhitespace).reverse

/-- Python str.split(sep) for a fixed separator, fuel-indexed so that the
recursion is structural; the fuel is the length of the string, which
suffices because every step consumes at least one character.  Mirrors
row_data.split(self.multi_delimiter) at line 155: splitting the empty
string yields one empty field, and consecutive separators yield empty
fields. -/
def pySplitAux (sep : List Char) : Nat → List Char → List (List Char)
  | _, [] => [[]]
  | 0, s => [s]
  | fuel + 1, c :: cs =>
    if sep.isPrefixOf (c :: cs) then
      [] :: pySplitAux sep fuel (List.drop (sep.length - 1) cs)
    else
      match pySplitAux sep fuel cs with
      | [] => [[c]]
      | t :: ts => (c :: t) :: ts

/-- Python str.split(sep) (see pySplitAux). -/
def pySplit (sep s : List Char) : List (List Char) :=
  pySplitAux sep s.length s

/-- Lexicographic comparison of strings, used for the sorted category index
pandas builds in astype('category'). -/
def lexLe : List Char → List Char → Bool
  | [], _ => true
  | _ :: _, [] => false
  | a :: as, b :: bs => if a < b then true else if b < a then false else lexLe as bs

/-- Insert a value into a sorted duplicate-free list of category labels. -/
def insertCat (x : List Char) : List (List Char) → List (List Char)
  | [] => [x]
  | y :: ys => if x = y then y :: ys else if lexLe x y then x :: y :: ys else y :: insertCat x ys

/-- column.cat.categories: the sorted list of distinct non-missing values of
a column, as produced by pandas astype('category'). -/
def categoriesOf (column : List Cell) : List (List Char) :=
  (column.filterMap id).foldr insertCat []

/-- One cell of pd.crosstab(column, target_column): the number of rows in
which the column holds value a and the target column holds value b; rows
with a missing value in either column are dropped. -/
def countPair (column targ : List Cell) (a b : List Char) : Nat :=
  ((column.zip targ).filter (fun rc => decide (rc.1 = some a ∧ rc.2 = some b))).length

/-- pd.crosstab(column, target_column) (line 103): the full r x c grid of
observed counts over the category lists of the two categorical columns,
zero-count combinations included. -/
def crosstab (column targ : List Cell) : List (List Nat) :=
  (categoriesOf column).map (fun a => (categoriesOf targ).map (fun b => countPair column targ a b))

/-- Elementwise sum of two count vectors, padding the shorter one with
zeros; folding it over the rows is np.sum(values, axis=0). -/
def addVec : List Nat → List Nat → List Nat
  | [], ys => ys
  | xs, [] => xs
  | x :: xs, y :: ys => (x + y) :: addVec xs ys

/-- row_sums = np.sum(n_observed.values, axis=1) (line 107). -/
def row_sums (t : List (List Nat)) : List Nat :=
  t.map List.sum

/-- col_sums = np.sum(n_observed.values, axis=0) (line 108). -/
def col_sums (t : List (List Nat)) : List Nat :=
  t.foldr addVec []

/-- n = sum(row_sums) (line 109), the grand total of the table. -/
def grand_total (t : List (List Nat)) : Nat :=
  (row_sums t).sum

/-- NumPy float division of the nonnegative products row*col by the grand
total n.  When n = 0 every row marginal is 0, so the dividend is 0 as well
and the division is the NaN-producing 0/0; NaN is modelled as none. -/
def npDiv (a b : Rat) : Option Rat :=
  if b = 0 then none else some (a / b)

/-- n_expected = [[row * col / n for col in col_sums] for row in row_sums]
(line 110). -/
def n_expected_table (t : List (List Nat)) : List (List (Option Rat)) :=
  (row_sums t).map (fun (r : Nat) =>
    (col_sums t).map (fun (c : Nat) => npDiv ((r : Rat) * (c : Rat)) ((grand_total t : Nat) : Rat)))

/-- NumPy elementwise comparison x < m: a NaN cell compares false. -/
def npLtB : Option Rat → Rat → Bool
  | none, _ => false
  | some v, m => decide (v < m)

/-- np.any(n_expected < self.min_count) (line 115): the validity gate. -/
def anyBelow (e : List (List (Option Rat))) (m : Rat) : Bool :=
  e.any (fun row => row.any (fun c => npLtB c m))

/-- NaN-propagating addition of optional rationals. -/
def optAdd : Option Rat → Option Rat → Option Rat
  | some a, some b => some (a + b)
  | _, _ => none

/-- NaN-propagating sum, as computed by np.sum over float data. -/
def optSum (l : List (Option Rat)) : Option Rat :=
  l.foldr optAdd (some 0)

/-- One term (observed - expected)^2 / expected of the chi-square statistic;
a NaN expected cell gives a NaN term, and a zero expected cell gives a
non-finite term, also modelled as none (the gate makes it unreachable for
any positive min_count). -/
def chisq_cell (o : Nat) (e : Option Rat) : Option Rat :=
  match e with
  | none => none
  | some ev => if ev = 0 then none else some (((o : Rat) - ev) ^ 2 / ev)

/-- The chi-square statistic of scipy.stats.chisquare(n_observed, n_expected,
axis=None, ddof): the sum of (observed - expected)^2 / expected over all
cells of the flattened table. -/
def chisq_stat (obs : List (List Nat)) (ex : List (List (Option Rat))) : Option Rat :=
  optSum ((obs.zip ex).map (fun re => optSum ((re.1.zip re.2).map (fun ce => chisq_cell ce.1 ce.2))))

/-- Comparison p <= significance_level of line 135: false when p is NaN. -/
def optLeB : Option Rat → Rat → Bool
  | none, _ => false
  | some v, s => decide (v ≤ s)

/-- The per-question record produced by analyze_question: the observed and
expected tables, whether the validity gate fired, the ddof handed to
scipy.stats.chisquare and the degrees of freedom it effectively uses, the
statistic, the p-value, and the verdict appended to self.stats. -/
structure AnalyzeResult where
  n_observed : List (List Nat)
  n_expected : List (List (Option Rat))
  gate : Bool
  ddof : Option Int
  dof : Option Int
  stat : Option Rat
  p : Option Rat
  verdict : Verdict
deriving DecidableEq

/-- Core of QuestionDependence.analyze_question (lines 96-142) once the
crosstab is built: the expected table, the validity gate (early return with
verdict invalid, no statistic computed), ddof = r + c - 2 with r the number
of categories of the question and c the number of target categories
(line 129), the scipy chisquare call with k - 1 - ddof effective degrees of
freedom over the k flattened cells, and the threshold classification of
lines 135-140. -/
def analyze_table (pvalue : Rat → Int → Option Rat) (min_count significance_level : Rat)
    (n_categories n_target_categories : Nat) (t : List (List Nat)) : AnalyzeResult :=
  let ex := n_expected_table t
  if anyBelow ex min_count then
    { n_observed := t, n_expected := ex, gate := true, ddof := none, dof := none,
      stat := none, p := none, verdict := Verdict.invalid }
  else
    let ddof : Int := (n_categories : Int) + (n_target_categories : Int) - 2
    let dof : Int := ((t.map List.length).sum : Int) - 1 - ddof
    let stat := chisq_stat t ex
    let p := stat.bind (fun s => pvalue s dof)
    { n_observed := t, n_expected := ex, gate := false, ddof := some ddof, dof := some dof,
      stat := stat, p := p,
      verdict := if optLeB p significance_level then Verdict.related else Verdict.notRelated }

/-- QuestionDependence.analyze_question (lines 96-142): the category list of
the analysed column gives n_categories, the crosstab against the target
column gives the observed table. -/
def analyze_question (pvalue : Rat → Int → Option Rat) (min_count significance_level : Rat)
    (n_target_categories : Nat) (column targ : List Cell) : AnalyzeResult :=
  analyze_table pvalue min_count significance_level
    (categoriesOf column).length n_target_categories (crosstab column targ)

/-- QuestionDependence.convert_multi_to_single (lines 144-163) restricted to
the produced (label, target-value) pairs: each row of the multi-choice
column is split on the delimiter, each field is stripped and paired with
the row's target value.  A missing cell is a float NaN in pandas, on which
row_data.split raises AttributeError; that uncaught exception is the error
result.  The pair list is returned in row order, which is how the new
column and new target column are assembled before being re-categorised. -/
def convert_multi_to_single (delim : List Char) :
    List (Cell × Cell) → Except Unit (List (List Char × Cell))
  | [] => Except.ok []
  | (none, _) :: _ => Except.error ()
  | (some cell, tv) :: rest =>
    match convert_multi_to_single delim rest with
    | Except.error e => Except.error e
    | Except.ok restPairs =>
      Except.ok (((pySplit delim cell).map (fun v => (pyStrip v, tv))) ++ restPairs)

/-- The accumulating summary of a run: the three index lists of self.stats,
plus a trace recording which branch of run processed each question. -/
structure Stats where
  invalid : List Nat
  related : List Nat
  notRelated : List Nat
  trace : List (Nat × Branch)
deriving DecidableEq

/-- Append a processed question to the list selected by its verdict
(self.stats[...].append(i_question), lines 118, 137, 140). -/
def Stats.record (st : Stats) (i : Nat) (br : Branch) (v : Verdict) : Stats :=
  match v with
  | Verdict.invalid =>
    { st with invalid := st.invalid ++ [i], trace := st.trace ++ [(i, br)] }
  | Verdict.related =>
    { st with related := st.related ++ [i], trace := st.trace ++ [(i, br)] }
  | Verdict.notRelated =>
    { st with notRelated := st.notRelated ++ [i], trace := st.trace ++ [(i, br)] }

/-- Concatenation of the three summary lists of a run. -/
def Stats.all (st : Stats) : List Nat :=
  st.invalid ++ st.related ++ st.notRelated

/-- The configuration of a QuestionDependence object after __init__: the
data columns, the resolved target index, the two index lists, the
multi-choice delimiter, and the two thresholds. -/
structure QD where
  columns : List (List Cell)
  target : Nat
  single : List Nat
  multi : List Nat
  multi_delimiter : List Char
  min_count : Rat
  significance_level : Rat

/-- self.target_column = self.df.iloc[:, self.target] (line 52). -/
def QD.target_column (qd : QD) : List Cell :=
  qd.columns.getD qd.target []

/-- self.n_target_categories (line 54), computed once from the original
target column and reused for every tested question. -/
def QD.n_target_categories (qd : QD) : Nat :=
  (categoriesOf qd.target_column).length

/-- The loop body of QuestionDependence.run (lines 79-87) over the remaining
question indices: fetch the column (df.iloc raises IndexError on an
out-of-range index, which aborts the run), analyze it through the
single-choice branch when the index is listed in self.single, otherwise
through the multi-choice branch, and record the verdict. -/
def runAux (pvalue : Rat → Int → Option Rat) (qd : QD) :
    List Nat → Stats → Except Unit Stats
  | [], st => Except.ok st
  | i :: rest, st =>
    if qd.columns.length ≤ i then Except.error ()
    else
      let column := qd.columns.getD i []
      if i ∈ qd.single then
        runAux pvalue qd rest (st.record i Branch.single
          (analyze_question pvalue qd.min_count qd.significance_level
            qd.n_target_categories column qd.target_column).verdict)
      else if i ∈ qd.multi then
        match convert_multi_to_single qd.multi_delimiter (column.zip qd.target_column) with
        | Except.error _ => Except.error ()
        | Except.ok pairs =>
          runAux pvalue qd rest (st.record i Branch.multi
            (analyze_question pvalue qd.min_count qd.significance_level
              qd.n_target_categories (pairs.map (fun pr => some pr.1))
              (pairs.map Prod.snd)).verdict)
      else runAux pvalue qd rest st

/-- sorted(self.single + self.multi) (line 80): Python sorted of the
concatenation of the two index lists, duplicates preserved. -/
def processOrder (qd : QD) : List Nat :=
  List.insertionSort (· ≤ ·) (qd.single ++ qd.multi)

/-- QuestionDependence.run (lines 79-87), starting from the empty summary
built in __init__ (lines 57-59). -/
def QD.run (pvalue : Rat → Int → Option Rat) (qd : QD) : Except Unit Stats :=
  runAux pvalue qd (processOrder qd) { invalid := [], related := [], notRelated := [], trace := [] }

/-- The verdict run records for question index i, when it records one: the
branch taken depends on membership in self.single first (line 82), so an
index in both lists always goes through the single-choice branch. -/
def QD.verdictOf (pvalue : Rat → Int → Option Rat) (qd : QD) (i : Nat) : Option Verdict :=
  let column := qd.columns.getD i []
  if i ∈ qd.single then
    some (analyze_question pvalue qd.min_count qd.significance_level
      qd.n_target_categories column qd.target_column).verdict
  else if i ∈ qd.multi then
    match convert_multi_to_single qd.multi_delimiter (column.zip qd.target_column) with
    | Except.error _ => none
    | Except.ok pairs =>
      some (analyze_question pvalue qd.min_count qd.significance_level
        qd.n_target_categories (pairs.map (fun pr => some pr.1))
        (pairs.map Prod.snd)).verdict
  else none

/-- Boolean form of "index i is listed as a question to test". -/
def testedB (qd : QD) (i : Nat) : Bool :=
  decide (i ∈ qd.single ∨ i ∈ qd.multi)

/-- A fixed stand-in for the chi-square survival function, used only to
instantiate closed concrete evaluations; every theorem below about the
pipeline is proved for an arbitrary pvalue function. -/
def pvalueConstOne : Rat → Int → Option Rat :=
  fun _ _ => some 1

/-! Helper lemmas about the summation primitives. -/

theorem addVec_nil (xs : List Nat) : addVec xs [] = xs := by
  cases xs <;> rfl

theorem sum_addVec (xs ys : List Nat) : (addVec xs ys).sum = xs.sum + ys.sum := by
  induction xs generalizing ys with
  | nil => simp [addVec]
  | cons x xs ih =>
    cases ys with
    | nil => simp [addVec]
    | cons y ys => simp [addVec, ih]; ring

theorem length_addVec (xs ys : List Nat) : (addVec xs ys).length = max xs.length ys.length := by
  induction xs generalizing ys with
  | nil => simp [addVec]
  | cons x xs ih =>
    cases ys with
    | nil => simp [addVec]
    | cons y ys => simp [addVec, ih]; omega

theorem col_sums_cons (r : List Nat) (rs : List (List Nat)) :
    col_sums (r :: rs) = addVec r (col_sums rs) := rfl

theorem sum_col_sums (t : List (List Nat)) : (col_sums t).sum = (row_sums t).sum := by
  induction t with
  | nil => rfl
  | cons r rs ih => simp [col_sums_cons, sum_addVec, ih, row_sums]

theorem length_col_sums_ge (t : List (List Nat)) :
    ∀ row ∈ t, row.length ≤ (col_sums t).length := by
  induction t with
  | nil => simp
  | cons r rs ih =>
    intro row hrow
    rcases List.mem_cons.mp hrow with h | h
    · subst h; rw [col_sums_cons, length_addVec]; omega
    · have := ih row h
      rw [col_sums_cons, length_addVec]
      omega

theorem optSum_map_some {α : Type} (f : α → Rat) (l : List α) :
    optSum (l.map (fun x => some (f x))) = some ((l.map f).sum) := by
  induction l with
  | nil => rfl
  | cons x xs ih =>
    simp only [optSum, List.map_cons, List.foldr_cons, List.sum_cons] at *
    rw [ih]
    rfl

theorem optSum_eq_none (l : List (Option Rat)) (h : none ∈ l) : optSum l = none := by
  induction l with
  | nil => cases h
  | cons x xs ih =>
    rcases List.mem_cons.mp h with h | h
    · rw [← h]; rfl
    · simp only [optSum, List.foldr_cons] at *
      rw [ih h]
      cases x <;> rfl

theorem getD_map_lt {α β : Type} (f : α → β) (l : List α) (j : Nat) (h : j < l.length)
    (dv : β) (da : α) : (l.map f).getD j dv = f (l.getD j da) := by
  induction l generalizing j with
  | nil => simp at h
  | cons x xs ih =>
    cases j with
    | zero => rfl
    | succ j => simpa using ih j (by simpa using h)

/-! Marginal-preservation lemmas for the expected table. -/

theorem n_expected_row_sums (t : List (List Nat)) (h : grand_total t ≠ 0) :
    (n_expected_table t).map optSum = (row_sums t).map (fun r => some ((r : Nat) : Rat)) := by
  have hn : ((grand_total t : Nat) : Rat) ≠ 0 := Nat.cast_ne_zero.mpr h
  unfold n_expected_table
  rw [List.map_map]
  refine List.map_congr_left ?_
  intro r hr
  simp only [Function.comp_apply]
  have hrow : ((col_sums t).map (fun (c : Nat) => npDiv ((r : Rat) * (c : Rat)) ((grand_total t : Nat) : Rat)))
      = (col_sums t).map (fun (c : Nat) =>
          some ((c : Rat) * ((r : Rat) / ((grand_total t : Nat) : Rat)))) := by
    refine List.map_congr_left ?_
    intro c hc
    simp only [npDiv, if_neg hn]
    congr 1
    ring
  rw [hrow,
    optSum_map_some (fun c : Nat => (c : Rat) * ((r : Rat) / ((grand_total t : Nat) : Rat))),
    List.sum_map_mul_right, ← Nat.cast_list_sum, sum_col_sums]
  congr 1
  show ((grand_total t : Nat) : Rat) * ((r : Rat) / ((grand_total t : Nat) : Rat)) = (r : Rat)
  rw [mul_comm, div_mul_cancel₀]
  exact hn

theorem n_expected_col_sums (t : List (List Nat)) (h : grand_total t ≠ 0)
    (j : Nat) (hj : j < (col_sums t).length) :
    optSum ((n_expected_table t).map (fun row => row.getD j none))
      = some (((col_sums t).getD j 0 : Nat) : Rat) := by
  have hn : ((grand_total t : Nat) : Rat) ≠ 0 := Nat.cast_ne_zero.mpr h
  unfold n_expected_table
  rw [List.map_map]
  have h1 : ((row_sums t).map (fun (r : Nat) =>
        ((col_sums t).map (fun (c : Nat) => npDiv ((r : Rat) * (c : Rat)) ((grand_total t : Nat) : Rat))).getD j none))
      = (row_sums t).map (fun (r : Nat) =>
          some ((r : Rat) * ((((col_sums t).getD j 0 : Nat) : Rat) / ((grand_total t : Nat) : Rat)))) := by
    refine List.map_congr_left ?_
    intro r hr
    rw [getD_map_lt _ _ j hj none 0]
    simp only [npDiv, if_neg hn]
    congr 1
    ring
  simp only [Function.comp_def]
  rw [h1,
    optSum_map_some (fun r : Nat =>
      (r : Rat) * ((((col_sums t).getD j 0 : Nat) : Rat) / ((grand_total t : Nat) : Rat))),
    List.sum_map_mul_right, ← Nat.cast_list_sum]
  congr 1
  rw [mul_comm]
  show (((col_sums t).getD j 0 : Nat) : Rat) / ((grand_total t : Nat) : Rat)
      * ((grand_total t : Nat) : Rat) = (((col_sums t).getD j 0 : Nat) : Rat)
  rw [div_mul_cancel₀]
  exact hn

theorem n_expected_total (t : List (List Nat)) (h : grand_total t ≠ 0) :
    optSum ((n_expected_table t).map optSum) = some ((grand_total t : Nat) : Rat) := by
  rw [n_expected_row_sums t h, optSum_map_some (fun r : Nat => (r : Rat)), ← Nat.cast_list_sum]
  rfl

/-! Branch lemmas for analyze_table. -/

theorem analyze_table_gate_pos (pvalue : Rat → Int → Option Rat) (m s : Rat)
    (nc ntc : Nat) (t : List (List Nat))
    (hg : anyBelow (n_expected_table t) m = true) :
    analyze_table pvalue m s nc ntc t =
      { n_observed := t, n_expected := n_expected_table t, gate := true, ddof := none,
        dof := none, stat := none, p := none, verdict := Verdict.invalid } := by
  simp [analyze_table, hg]

theorem analyze_table_gate_neg (pvalue : Rat → Int → Option Rat) (m s : Rat)
    (nc ntc : Nat) (t : List (List Nat))
    (hg : anyBelow (n_expected_table t) m = false) :
    analyze_table pvalue m s nc ntc t =
      { n_observed := t, n_expected := n_expected_table t, gate := false,
        ddof := some ((nc : Int) + (ntc : Int) - 2),
        dof := some (((t.map List.length).sum : Int) - 1 - ((nc : Int) + (ntc : Int) - 2)),
        stat := chisq_stat t (n_expected_table t),
        p := (chisq_stat t (n_expected_table t)).bind
          (fun q => pvalue q (((t.map List.length).sum : Int) - 1 - ((nc : Int) + (ntc : Int) - 2))),
        verdict := if optLeB ((chisq_stat t (n_expected_table t)).bind
              (fun q => pvalue q (((t.map List.length).sum : Int) - 1
                - ((nc : Int) + (ntc : Int) - 2)))) s
          then Verdict.related else Verdict.notRelated } := by
  simp [analyze_table, hg]

theorem analyze_table_invalid_iff (pvalue : Rat → Int → Option Rat) (m s : Rat)
    (nc ntc : Nat) (t : List (List Nat)) :
    (analyze_table pvalue m s nc ntc t).verdict = Verdict.invalid
      ↔ anyBelow (n_expected_table t) m = true := by
  by_cases hg : anyBelow (n_expected_table t) m
  · simp [analyze_table_gate_pos pvalue m s nc ntc t hg, hg]
  · simp only [Bool.not_eq_true] at hg
    rw [analyze_table_gate_neg pvalue m s nc ntc t hg, hg]
    simp only [Bool.false_eq_true, iff_false]
    split <;> simp

theorem analyze_table_invalid_stat (pvalue : Rat → Int → Option Rat) (m s : Rat)
    (nc ntc : Nat) (t : List (List Nat))
    (hg : anyBelow (n_expected_table t) m = true) :
    (analyze_table pvalue m s nc ntc t).stat = none := by
  rw [analyze_table_gate_pos pvalue m s nc ntc t hg]

/-- C2: For every tested question, the verdict is "invalid" if and only if some
expected cell compares below min_count (the NumPy comparison of line 115), in
which case no statistic is computed; otherwise, writing p for the computed
p-value, the verdict is "related" when p <= significance_level and
"not related" when p > significance_level (lines 135-140). -/
theorem verdict_gate_and_threshold (pvalue : Rat → Int → Option Rat) (m s : Rat)
    (nc ntc : Nat) (t : List (List Nat)) :
    ((analyze_table pvalue m s nc ntc t).verdict = Verdict.invalid
        ↔ anyBelow (n_expected_table t) m = true)
    ∧ ((analyze_table pvalue m s nc ntc t).verdict = Verdict.invalid
        → (analyze_table pvalue m s nc ntc t).stat = none)
    ∧ (anyBelow (n_expected_table t) m = false →
        ∀ v : Rat, (analyze_table pvalue m s nc ntc t).p = some v →
          ((analyze_table pvalue m s nc ntc t).verdict = Verdict.related ↔ v ≤ s)
          ∧ (s < v → (analyze_table pvalue m s nc ntc t).verdict = Verdict.notRelated)) := by
  refine ⟨analyze_table_invalid_iff pvalue m s nc ntc t, ?_, ?_⟩
  · intro hv
    exact analyze_table_invalid_stat pvalue m s nc ntc t
      ((analyze_table_invalid_iff pvalue m s nc ntc t).mp hv)
  · intro hg v hp
    rw [analyze_table_gate_neg pvalue m s nc ntc t hg] at hp ⊢
    simp only at hp
    rw [hp]
    constructor
    · by_cases hvs : v ≤ s
      · simp [optLeB, hvs]
      · simp [optLeB, hvs]
    · intro hlt
      have hvs : ¬ v ≤ s := not_le.mpr hlt
      simp [optLeB, hvs]

/-- Witness for C2 at two concrete tables: a 1x1 table whose expected count 1 is
below the default min_count 5 (verdict invalid, no statistic), and a 1x2 table
with expected counts 5 where the stand-in p-value 1 exceeds the significance
level 1/10 (verdict not related). -/
theorem verdict_gate_and_threshold_witness :
    (analyze_table pvalueConstOne 5 (1/10) 1 1 [[1]]).verdict = Verdict.invalid
    ∧ (analyze_table pvalueConstOne 5 (1/10) 1 1 [[1]]).stat = none
    ∧ (analyze_table pvalueConstOne 5 (1/10) 1 2 [[5, 5]]).verdict = Verdict.notRelated := by
  have h1 := verdict_gate_and_threshold pvalueConstOne 5 (1/10) 1 1 [[1]]
  have hg1 : anyBelow (n_expected_table [[1]]) 5 = true := by
    norm_num [anyBelow, n_expected_table, npDiv, npLtB, row_sums, col_sums, grand_total, addVec]
  have hv1 := h1.1.mpr hg1
  have h2 := verdict_gate_and_threshold pvalueConstOne 5 (1/10) 1 2 [[5, 5]]
  have hg2 : anyBelow (n_expected_table [[5, 5]]) 5 = false := by
    norm_num [anyBelow, n_expected_table, npDiv, npLtB, row_sums, col_sums, grand_total, addVec]
  have hp2 : (analyze_table pvalueConstOne 5 (1/10) 1 2 [[5, 5]]).p = some 1 := by
    rw [analyze_table_gate_neg pvalueConstOne 5 (1/10) 1 2 [[5, 5]] hg2]
    norm_num [chisq_stat, chisq_cell, n_expected_table, npDiv, row_sums, col_sums, grand_total,
      addVec, optSum, optAdd, pvalueConstOne]
  exact ⟨hv1, h1.2.1 hv1, (h2.2.2 hg2 1 hp2).2 (by norm_num)⟩

/-- C5: For every contingency table with nonzero grand total, the expected table
expected[i][j] = row_i * col_j / n has row sums equal to the observed row
marginals, column sums equal to the observed column marginals, and hence total
sum equal to the observed grand total - exactly, hence within any floating
tolerance. -/
theorem expected_preserves_marginals (t : List (List Nat)) (h : grand_total t ≠ 0) :
    (n_expected_table t).map optSum = (row_sums t).map (fun (r : Nat) => some ((r : Rat)))
    ∧ (∀ j, j < (col_sums t).length →
        optSum ((n_expected_table t).map (fun row => row.getD j none))
          = some (((col_sums t).getD j 0 : Nat) : Rat))
    ∧ optSum ((n_expected_table t).map optSum) = some ((grand_total t : Nat) : Rat) :=
  ⟨n_expected_row_sums t h, fun j hj => n_expected_col_sums t h j hj, n_expected_total t h⟩

/-- Witness for C5 at the table [[1,2],[3,4]]: grand total 10, second column
marginal 6, total expected sum 10. -/
theorem expected_preserves_marginals_witness :
    grand_total [[1, 2], [3, 4]] ≠ 0
    ∧ optSum ((n_expected_table [[1, 2], [3, 4]]).map (fun row => row.getD 1 none))
        = some ((6 : Nat) : Rat)
    ∧ optSum ((n_expected_table [[1, 2], [3, 4]]).map optSum) = some ((10 : Nat) : Rat) := by
  have h := expected_preserves_marginals [[1, 2], [3, 4]] (by decide)
  exact ⟨by decide, h.2.1 1 (by decide), h.2.2⟩

/-! Shape lemmas for the crosstab, and the degrees-of-freedom computation. -/

theorem crosstab_length (column targ : List Cell) :
    (crosstab column targ).length = (categoriesOf column).length := by
  simp [crosstab]

theorem crosstab_row_length (column targ : List Cell) :
    ∀ row ∈ crosstab column targ, row.length = (categoriesOf targ).length := by
  intro row hrow
  rcases List.mem_map.mp hrow with ⟨a, ha, hrow2⟩
  rw [← hrow2]
  simp

theorem sum_map_length_eq (t : List (List Nat)) (c : Nat) (h : ∀ row ∈ t, row.length = c) :
    (t.map List.length).sum = t.length * c := by
  induction t with
  | nil => simp
  | cons r rs ih =>
    simp only [List.map_cons, List.sum_cons, List.length_cons]
    rw [h r (by simp), ih (fun row hr => h row (by simp [hr]))]
    ring

/-- C1: For every tested question whose validity gate passes, with r observed
categories and c target categories, scipy.stats.chisquare is invoked with
ddof = r + c - 2 (line 129), so that the effective degrees of freedom
k - 1 - ddof of the p-value computation equals (r-1)(c-1). -/
theorem ddof_correction (pvalue : Rat → Int → Option Rat) (m s : Rat)
    (ntc : Nat) (column targ : List Cell)
    (hgate : anyBelow (n_expected_table (crosstab column targ)) m = false)
    (hc : ntc = (categoriesOf targ).length) :
    (analyze_question pvalue m s ntc column targ).ddof
      = some (((categoriesOf column).length : Int) + (ntc : Int) - 2)
    ∧ (analyze_question pvalue m s ntc column targ).dof
      = some ((((categoriesOf column).length : Int) - 1) * ((ntc : Int) - 1)) := by
  have hk : ((crosstab column targ).map List.length).sum
      = (categoriesOf column).length * ntc := by
    rw [sum_map_length_eq (crosstab column targ) (categoriesOf targ).length
      (crosstab_row_length column targ), crosstab_length, hc]
  simp only [analyze_question]
  rw [analyze_table_gate_neg pvalue m s (categoriesOf column).length ntc
    (crosstab column targ) hgate]
  refine ⟨rfl, ?_⟩
  simp only
  congr 1
  rw [hk]
  push_cast
  ring

/-- Witness for C1: a 3-category question against a 2-category target, six
observations giving the uniform 3x2 table of ones; with min_count 1 the gate
passes, ddof = 3 + 2 - 2 = 3 and the effective degrees of freedom are
(3-1)(2-1) = 2. -/
theorem ddof_correction_witness :
    anyBelow (n_expected_table (crosstab
        [some ['A'], some ['A'], some ['B'], some ['B'], some ['C'], some ['C']]
        [some ['Y'], some ['N'], some ['Y'], some ['N'], some ['Y'], some ['N']])) 1 = false
    ∧ (analyze_question pvalueConstOne 1 (1/10) 2
        [some ['A'], some ['A'], some ['B'], some ['B'], some ['C'], some ['C']]
        [some ['Y'], some ['N'], some ['Y'], some ['N'], some ['Y'], some ['N']]).ddof = some 3
    ∧ (analyze_question pvalueConstOne 1 (1/10) 2
        [some ['A'], some ['A'], some ['B'], some ['B'], some ['C'], some ['C']]
        [some ['Y'], some ['N'], some ['Y'], some ['N'], some ['Y'], some ['N']]).dof = some 2 := by
  have hct : crosstab
      [some ['A'], some ['A'], some ['B'], some ['B'], some ['C'], some ['C']]
      [some ['Y'], some ['N'], some ['Y'], some ['N'], some ['Y'], some ['N']]
      = [[1, 1], [1, 1], [1, 1]] := by decide
  have hgate : anyBelow (n_expected_table (crosstab
      [some ['A'], some ['A'], some ['B'], some ['B'], some ['C'], some ['C']]
      [some ['Y'], some ['N'], some ['Y'], some ['N'], some ['Y'], some ['N']])) 1 = false := by
    rw [hct]
    norm_num [anyBelow, n_expected_table, npDiv, npLtB, row_sums, col_sums, grand_total, addVec]
  have h := ddof_correction pvalueConstOne 1 (1/10) 2
    [some ['A'], some ['A'], some ['B'], some ['B'], some ['C'], some ['C']]
    [some ['Y'], some ['N'], some ['Y'], some ['N'], some ['Y'], some ['N']] hgate (by decide)
  exact ⟨hgate, h.1, h.2⟩

/-! A question with a single observed category. -/

theorem col_sums_single (row : List Nat) : col_sums [row] = row := by
  rw [col_sums_cons]
  exact addVec_nil row

/-- C9 (amended): a question with only 1 observed category receives no special
handling: its expected table equals its observed table (each expected cell is
the corresponding column marginal), so the verdict is "invalid" exactly when
some observed count is below min_count; with all counts at or above min_count
the question is classified by the p-value like any other question. -/
theorem single_category_no_special_handling (pvalue : Rat → Int → Option Rat)
    (m s : Rat) (nc ntc : Nat) (row : List Nat) (h0 : row.sum ≠ 0) :
    n_expected_table [row] = [row.map (fun (a : Nat) => some ((a : Rat)))]
    ∧ ((analyze_table pvalue m s nc ntc [row]).verdict = Verdict.invalid
        ↔ ∃ a ∈ row, (a : Rat) < m) := by
  have hg : grand_total [row] = row.sum := by simp [grand_total, row_sums]
  have hn : ((grand_total [row] : Nat) : Rat) ≠ 0 := by
    rw [hg]
    exact Nat.cast_ne_zero.mpr h0
  have hex : n_expected_table [row] = [row.map (fun (a : Nat) => some ((a : Rat)))] := by
    unfold n_expected_table
    simp only [row_sums, List.map_cons, List.map_nil, col_sums_single]
    congr 1
    refine List.map_congr_left ?_
    intro c hc
    simp only [npDiv, if_neg hn]
    congr 1
    rw [hg]
    rw [mul_div_cancel_left₀]
    rw [hg] at hn
    exact hn
  refine ⟨hex, ?_⟩
  rw [analyze_table_invalid_iff, hex]
  simp [anyBelow, npLtB, List.any_eq_true]

/-- Witness for C9 (amended): the 1x2 table [[5,5]] with min_count 5 has no
observed count below 5, so the gate does not fire and the verdict is not
"invalid". -/
theorem single_category_no_special_handling_witness :
    n_expected_table [[5, 5]] = [[some ((5 : Nat) : Rat), some ((5 : Nat) : Rat)]]
    ∧ ((analyze_table pvalueConstOne 5 (1/10) 1 2 [[5, 5]]).verdict = Verdict.invalid
        ↔ ∃ a ∈ [5, 5], ((a : Nat) : Rat) < 5) := by
  have h := single_category_no_special_handling pvalueConstOne 5 (1/10) 1 2 [5, 5] (by decide)
  exact ⟨h.1, h.2⟩

/-- C9 counterexample: a full question with a single observed category ("A" in
all 10 rows) against a 2-category target with balanced counts; every expected
cell is 5, the gate does not fire, and the question is classified
"not related" (with the stand-in p-value 1), not "invalid" as the claim
states. -/
theorem single_category_counterexample :
    (categoriesOf (List.replicate 10 (some ['A']))).length = 1
    ∧ (analyze_question pvalueConstOne 5 (1/10) 2 (List.replicate 10 (some ['A']))
        (List.replicate 5 (some ['Y']) ++ List.replicate 5 (some ['N']))).verdict
      = Verdict.notRelated := by
  constructor
  · decide
  · have hct : crosstab (List.replicate 10 (some ['A']))
        (List.replicate 5 (some ['Y']) ++ List.replicate 5 (some ['N'])) = [[5, 5]] := by
      decide
    have hcat : (categoriesOf (List.replicate 10 (some ['A']))).length = 1 := by decide
    simp only [analyze_question, hct, hcat]
    norm_num [analyze_table, anyBelow, n_expected_table, npDiv, npLtB, row_sums, col_sums,
      grand_total, addVec, chisq_stat, chisq_cell, optSum, optAdd, optLeB, pvalueConstOne]

/-! The zero-grand-total case: every expected cell is NaN. -/

theorem optSum_none_iff (l : List (Option Rat)) : optSum l = none ↔ none ∈ l := by
  induction l with
  | nil => simp [optSum]
  | cons x xs ih =>
    cases x with
    | none =>
      simp only [optSum, List.foldr_cons]
      constructor
      · intro _
        exact List.mem_cons_self none xs
      · intro _
        rfl
    | some a =>
      simp only [optSum, List.foldr_cons] at *
      cases hxs : xs.foldr optAdd (some 0) with
      | none =>
        simp only [optAdd]
        constructor
        · intro _
          exact List.mem_cons.mpr (Or.inr (ih.mp hxs))
        · intro _
          trivial
      | some b =>
        simp only [optAdd]
        constructor
        · intro h
          cases h
        · intro h
          rcases List.mem_cons.mp h with h | h
          · cases h
          · rw [ih.mpr h] at hxs
            cases hxs

theorem map_const_replicate {α β : Type} (l : List α) (b : β) :
    l.map (fun _ => b) = List.replicate l.length b := by
  induction l with
  | nil => rfl
  | cons x xs ih => simp [List.replicate_succ, ih]

theorem n_expected_zero_total (t : List (List Nat)) (h0 : grand_total t = 0) :
    n_expected_table t
      = (row_sums t).map (fun _ => (col_sums t).map (fun _ => (none : Option Rat))) := by
  unfold n_expected_table
  refine List.map_congr_left ?_
  intro r hr
  refine List.map_congr_left ?_
  intro c hc
  simp [npDiv, h0]

theorem chisq_stat_nan_rows (nanRow : List (Option Rat)) (hnan : ∀ x ∈ nanRow, x = none) :
    ∀ t : List (List Nat), (∃ row ∈ t, row ≠ [] ∧ row.length ≤ nanRow.length) →
      chisq_stat t (List.replicate t.length nanRow) = none := by
  intro t
  induction t with
  | nil =>
    rintro ⟨row, hmem, _⟩
    cases hmem
  | cons r rs ih =>
    rintro ⟨row, hmem, hne, hlen⟩
    rw [chisq_stat]
    rw [optSum_none_iff]
    simp only [List.length_cons, List.replicate_succ, List.zip_cons_cons, List.map_cons]
    rcases List.mem_cons.mp hmem with heq | hmem2
    · subst heq
      refine List.mem_cons.mpr (Or.inl ?_)
      symm
      rw [optSum_none_iff]
      cases row with
      | nil => exact absurd rfl hne
      | cons a as =>
        cases nanRow with
        | nil => simp at hlen
        | cons e es =>
          have he : e = none := hnan e (by simp)
          subst he
          simp only [List.zip_cons_cons, List.map_cons, chisq_cell]
          exact List.mem_cons_self none _
    · refine List.mem_cons.mpr (Or.inr ?_)
      have htail := ih ⟨row, hmem2, hne, hlen⟩
      rw [chisq_stat, optSum_none_iff] at htail
      exact htail

theorem chisq_stat_zero_total (t : List (List Nat)) (h0 : grand_total t = 0)
    (hcell : ∃ row ∈ t, row ≠ []) :
    chisq_stat t (n_expected_table t) = none := by
  obtain ⟨row, hmem, hne⟩ := hcell
  have hrepl : n_expected_table t
      = List.replicate t.length ((col_sums t).map (fun _ => (none : Option Rat))) := by
    rw [n_expected_zero_total t h0, map_const_replicate]
    congr 1
    simp [row_sums]
  rw [hrepl]
  refine chisq_stat_nan_rows ((col_sums t).map (fun _ => (none : Option Rat))) ?_ t
    ⟨row, hmem, hne, ?_⟩
  · intro x hx
    rcases List.mem_map.mp hx with ⟨c, hc, hxeq⟩
    exact hxeq.symm
  · have := length_col_sums_ge t row hmem
    simpa using this

/-- C6 (amended): for a tested question whose contingency table has grand total
0 but at least one cell, every expected cell is the NaN result of the 0/0
division; no error is raised, the validity gate does not fire because a NaN
comparison is false, the statistic and the p-value are NaN, and the question
is classified "not related" (NaN <= significance_level is false).  The batch
continues; nothing reports the degenerate division. -/
theorem zero_total_silently_not_related (pvalue : Rat → Int → Option Rat)
    (m s : Rat) (nc ntc : Nat) (t : List (List Nat))
    (h0 : grand_total t = 0) (hcell : ∃ row ∈ t, row ≠ []) :
    anyBelow (n_expected_table t) m = false
    ∧ (analyze_table pvalue m s nc ntc t).stat = none
    ∧ (analyze_table pvalue m s nc ntc t).p = none
    ∧ (analyze_table pvalue m s nc ntc t).verdict = Verdict.notRelated := by
  have hgate : anyBelow (n_expected_table t) m = false := by
    rw [n_expected_zero_total t h0]
    simp [anyBelow, npLtB, List.any_eq_true]
  have hstat := chisq_stat_zero_total t h0 hcell
  have hrec := analyze_table_gate_neg pvalue m s nc ntc t hgate
  refine ⟨hgate, ?_, ?_, ?_⟩
  · rw [hrec]
    simpa using hstat
  · rw [hrec]
    simp [hstat]
  · rw [hrec]
    simp [hstat, optLeB]

/-- Witness for C6 (amended) at the all-zero 2x2 table. -/
theorem zero_total_silently_not_related_witness :
    grand_total [[0, 0], [0, 0]] = 0
    ∧ (analyze_table pvalueConstOne 5 (1/10) 2 2 [[0, 0], [0, 0]]).stat = none
    ∧ (analyze_table pvalueConstOne 5 (1/10) 2 2 [[0, 0], [0, 0]]).verdict
        = Verdict.notRelated := by
  have h := zero_total_silently_not_related pvalueConstOne 5 (1/10) 2 2 [[0, 0], [0, 0]]
    (by decide) ⟨[0, 0], by simp, by simp⟩
  exact ⟨by decide, h.2.1, h.2.2.2⟩

/-- C6 counterexample: at the all-zero 2x2 table (grand total 0) the code
records the question as "not related", not "invalid", and raises no error:
the 0/0 expected cells are NaN, every NaN comparison is false, and the NaN
p-value fails the threshold test. -/
theorem zero_total_counterexample :
    (analyze_table pvalueConstOne 5 (1/10) 2 2 [[0, 0], [0, 0]]).verdict = Verdict.notRelated
    ∧ (analyze_table pvalueConstOne 5 (1/10) 2 2 [[0, 0], [0, 0]]).verdict
        ≠ Verdict.invalid := by
  have hv : (analyze_table pvalueConstOne 5 (1/10) 2 2 [[0, 0], [0, 0]]).verdict
      = Verdict.notRelated := by
    norm_num [analyze_table, anyBelow, n_expected_table, npDiv, npLtB, row_sums, col_sums,
      grand_total, addVec, chisq_stat, chisq_cell, optSum, optAdd, optLeB, pvalueConstOne]
  refine ⟨hv, ?_⟩
  rw [hv]
  intro h
  cases h

/-! Behaviour of convert_multi_to_single. -/

/-- C7 (amended): a missing (NaN) cell of a multi-choice column makes
convert_multi_to_single fail - row_data.split raises an uncaught
AttributeError on the float NaN, aborting the run - while an empty-string
cell contributes exactly one expanded pair whose label is the empty string,
because Python splits the empty string into one empty field. -/
theorem convert_missing_cell_behaviour (delim : List Char) :
    (∀ rows : List (Cell × Cell), (∃ pr ∈ rows, pr.1 = none) →
        convert_multi_to_single delim rows = Except.error ())
    ∧ (∀ tv : Cell, convert_multi_to_single delim [(some [], tv)]
        = Except.ok [(([] : List Char), tv)]) := by
  constructor
  · intro rows
    induction rows with
    | nil =>
      rintro ⟨pr, hmem, _⟩
      cases hmem
    | cons rt rest ih =>
      rintro ⟨pr, hmem, hnone⟩
      obtain ⟨rc, rtv⟩ := rt
      cases rc with
      | none => rfl
      | some c =>
        rcases List.mem_cons.mp hmem with heq | hmem2
        · rw [heq] at hnone
          simp at hnone
        · have herr := ih ⟨pr, hmem2, hnone⟩
          simp [convert_multi_to_single, herr]
  · intro tv
    rfl

/-- Witness for C7 (amended): a missing cell in the second row aborts the
conversion even though the first row is fine, and an empty-string cell
expands to the single pair with an empty label. -/
theorem convert_missing_cell_behaviour_witness :
    convert_multi_to_single [','] [((some ['A'] : Cell), (some ['N'] : Cell)),
        ((none : Cell), (some ['N'] : Cell))] = Except.error ()
    ∧ convert_multi_to_single [','] [((some [] : Cell), (some ['N'] : Cell))]
        = Except.ok [(([] : List Char), (some ['N'] : Cell))] :=
  ⟨(convert_missing_cell_behaviour [',']).1
      [((some ['A'] : Cell), (some ['N'] : Cell)), ((none : Cell), (some ['N'] : Cell))]
      ⟨(none, some ['N']), by simp, rfl⟩,
    (convert_missing_cell_behaviour [',']).2 (some ['N'])⟩

/-- C7 counterexample: the claim says a missing or empty cell contributes zero
expanded pairs and is skipped without an error; instead a one-row column with
a missing cell makes the conversion raise (Except.error models the uncaught
AttributeError), and a one-row column with an empty-string cell contributes
one pair, not zero. -/
theorem convert_missing_cell_counterexample :
    convert_multi_to_single [','] [((none : Cell), (some ['Y'] : Cell))] = Except.error ()
    ∧ convert_multi_to_single [','] [((some [] : Cell), (some ['Y'] : Cell))]
        = Except.ok [(([] : List Char), (some ['Y'] : Cell))] :=
  ⟨rfl, rfl⟩

/-- C8: For a multi-choice column with non-missing cells, the expansion
produces, per original row and in row order, exactly one (label,
target-value) pair for each delimiter-split field of the cell with
surrounding whitespace stripped, preserving multiplicity; in particular the
cell "A, B,C" with delimiter "," and target value "Yes" expands to exactly
the three pairs (A,Yes), (B,Yes), (C,Yes). -/
theorem convert_expansion (delim : List Char) :
    (∀ rows : List ((List Char) × Cell),
        convert_multi_to_single delim (rows.map (fun rt => (some rt.1, rt.2)))
          = Except.ok (rows.flatMap
              (fun rt => (pySplit delim rt.1).map (fun v => (pyStrip v, rt.2)))))
    ∧ convert_multi_to_single [','] [(some ['A', ',', ' ', 'B', ',', 'C'], some ['Y', 'e', 's'])]
        = Except.ok [(['A'], some ['Y', 'e', 's']), (['B'], some ['Y', 'e', 's']),
            (['C'], some ['Y', 'e', 's'])] := by
  constructor
  · intro rows
    induction rows with
    | nil => rfl
    | cons rt rest ih =>
      simp only [List.map_cons, List.flatMap_cons, convert_multi_to_single, ih]
  · rfl

/-! Behaviour of the run loop. -/

theorem record_trace (st : Stats) (i : Nat) (br : Branch) (v : Verdict) :
    (st.record i br v).trace = st.trace ++ [(i, br)] := by
  cases v <;> rfl

theorem record_all_perm (st : Stats) (i : Nat) (br : Branch) (v : Verdict) :
    (st.record i br v).all.Perm (st.all ++ [i]) := by
  cases v with
  | invalid =>
    simp only [Stats.record, Stats.all, List.append_assoc]
    refine List.Perm.append_left st.invalid ?_
    have h := @List.perm_append_comm _ [i] (st.related ++ st.notRelated)
    simpa [List.append_assoc] using h
  | related =>
    simp only [Stats.record, Stats.all, List.append_assoc]
    refine List.Perm.append_left st.invalid ?_
    refine List.Perm.append_left st.related ?_
    exact @List.perm_append_comm _ [i] st.notRelated
  | notRelated =>
    simp [Stats.record, Stats.all, List.append_assoc]

theorem runAux_ok_all_perm (pvalue : Rat → Int → Option Rat) (qd : QD) :
    ∀ (l : List Nat) (st0 st1 : Stats), runAux pvalue qd l st0 = Except.ok st1 →
      st1.all.Perm (st0.all ++ l.filter (testedB qd)) := by
  intro l
  induction l with
  | nil =>
    intro st0 st1 h
    simp only [runAux] at h
    cases h
    simp
  | cons i rest ih =>
    intro st0 st1 h
    simp only [runAux] at h
    by_cases hb : qd.columns.length ≤ i
    · rw [if_pos hb] at h
      cases h
    · rw [if_neg hb] at h
      by_cases hs : i ∈ qd.single
      · rw [if_pos hs] at h
        have hperm := ih _ _ h
        refine hperm.trans ?_
        have hfil : (i :: rest).filter (testedB qd) = i :: rest.filter (testedB qd) := by
          simp [List.filter_cons, testedB, hs]
        rw [hfil]
        have h2 := (record_all_perm st0 i Branch.single
          (analyze_question pvalue qd.min_count qd.significance_level qd.n_target_categories
            (qd.columns.getD i []) qd.target_column).verdict).append_right
          (rest.filter (testedB qd))
        refine h2.trans ?_
        simp [List.append_assoc]
      · rw [if_neg hs] at h
        by_cases hm : i ∈ qd.multi
        · rw [if_pos hm] at h
          cases hconv : convert_multi_to_single qd.multi_delimiter
              ((qd.columns.getD i []).zip qd.target_column) with
          | error e =>
            rw [hconv] at h
            cases h
          | ok pairs =>
            rw [hconv] at h
            have hperm := ih _ _ h
            refine hperm.trans ?_
            have hfil : (i :: rest).filter (testedB qd) = i :: rest.filter (testedB qd) := by
              simp [List.filter_cons, testedB, hm]
            rw [hfil]
            have h2 := (record_all_perm st0 i Branch.multi
              (analyze_question pvalue qd.min_count qd.significance_level qd.n_target_categories
                (pairs.map (fun pr => some pr.1)) (pairs.map Prod.snd)).verdict).append_right
              (rest.filter (testedB qd))
            refine h2.trans ?_
            simp [List.append_assoc]
        · rw [if_neg hm] at h
          have hperm := ih _ _ h
          refine hperm.trans ?_
          have hfil : (i :: rest).filter (testedB qd) = rest.filter (testedB qd) := by
            simp [List.filter_cons, testedB, hs, hm]
          rw [hfil]

theorem runAux_ok_trace (pvalue : Rat → Int → Option Rat) (qd : QD) :
    ∀ (l : List Nat) (st0 st1 : Stats), runAux pvalue qd l st0 = Except.ok st1 →
      st1.trace = st0.trace ++ (l.filter (testedB qd)).map
        (fun i => (i, if i ∈ qd.single then Branch.single else Branch.multi)) := by
  intro l
  induction l with
  | nil =>
    intro st0 st1 h
    simp only [runAux] at h
    cases h
    simp
  | cons i rest ih =>
    intro st0 st1 h
    simp only [runAux] at h
    by_cases hb : qd.columns.length ≤ i
    · rw [if_pos hb] at h
      cases h
    · rw [if_neg hb] at h
      by_cases hs : i ∈ qd.single
      · rw [if_pos hs] at h
        rw [ih _ _ h, record_trace]
        have hfil : (i :: rest).filter (testedB qd) = i :: rest.filter (testedB qd) := by
          simp [List.filter_cons, testedB, hs]
        rw [hfil]
        simp [List.append_assoc, if_pos hs]
      · rw [if_neg hs] at h
        by_cases hm : i ∈ qd.multi
        · rw [if_pos hm] at h
          cases hconv : convert_multi_to_single qd.multi_delimiter
              ((qd.columns.getD i []).zip qd.target_column) with
          | error e =>
            rw [hconv] at h
            cases h
          | ok pairs =>
            rw [hconv] at h
            rw [ih _ _ h, record_trace]
            have hfil : (i :: rest).filter (testedB qd) = i :: rest.filter (testedB qd) := by
              simp [List.filter_cons, testedB, hm]
            rw [hfil]
            simp [List.append_assoc, if_neg hs]
        · rw [if_neg hm] at h
          rw [ih _ _ h]
          have hfil : (i :: rest).filter (testedB qd) = rest.filter (testedB qd) := by
            simp [List.filter_cons, testedB, hs, hm]
          rw [hfil]

theorem record_verdicts (pvalue : Rat → Int → Option Rat) (qd : QD) (st : Stats)
    (i : Nat) (br : Branch) (v : Verdict)
    (hv : qd.verdictOf pvalue i = some v)
    (h1 : ∀ j ∈ st.invalid, qd.verdictOf pvalue j = some Verdict.invalid)
    (h2 : ∀ j ∈ st.related, qd.verdictOf pvalue j = some Verdict.related)
    (h3 : ∀ j ∈ st.notRelated, qd.verdictOf pvalue j = some Verdict.notRelated) :
    (∀ j ∈ (st.record i br v).invalid, qd.verdictOf pvalue j = some Verdict.invalid)
    ∧ (∀ j ∈ (st.record i br v).related, qd.verdictOf pvalue j = some Verdict.related)
    ∧ (∀ j ∈ (st.record i br v).notRelated, qd.verdictOf pvalue j = some Verdict.notRelated) := by
  cases v with
  | invalid =>
    refine ⟨?_, ?_, ?_⟩
    · intro j hj
      simp only [Stats.record] at hj
      rcases List.mem_append.mp hj with hj | hj
      · exact h1 j hj
      · simp only [List.mem_singleton] at hj
        subst hj
        exact hv
    · intro j hj
      exact h2 j hj
    · intro j hj
      exact h3 j hj
  | related =>
    refine ⟨?_, ?_, ?_⟩
    · intro j hj
      exact h1 j hj
    · intro j hj
      simp only [Stats.record] at hj
      rcases List.mem_append.mp hj with hj | hj
      · exact h2 j hj
      · simp only [List.mem_singleton] at hj
        subst hj
        exact hv
    · intro j hj
      exact h3 j hj
  | notRelated =>
    refine ⟨?_, ?_, ?_⟩
    · intro j hj
      exact h1 j hj
    · intro j hj
      exact h2 j hj
    · intro j hj
      simp only [Stats.record] at hj
      rcases List.mem_append.mp hj with hj | hj
      · exact h3 j hj
      · simp only [List.mem_singleton] at hj
        subst hj
        exact hv

theorem runAux_ok_verdicts (pvalue : Rat → Int → Option Rat) (qd : QD) :
    ∀ (l : List Nat) (st0 st1 : Stats), runAux pvalue qd l st0 = Except.ok st1 →
      (∀ j ∈ st0.invalid, qd.verdictOf pvalue j = some Verdict.invalid) →
      (∀ j ∈ st0.related, qd.verdictOf pvalue j = some Verdict.related) →
      (∀ j ∈ st0.notRelated, qd.verdictOf pvalue j = some Verdict.notRelated) →
      ((∀ j ∈ st1.invalid, qd.verdictOf pvalue j = some Verdict.invalid)
        ∧ (∀ j ∈ st1.related, qd.verdictOf pvalue j = some Verdict.related)
        ∧ (∀ j ∈ st1.notRelated, qd.verdictOf pvalue j = some Verdict.notRelated)) := by
  intro l
  induction l with
  | nil =>
    intro st0 st1 h h1 h2 h3
    simp only [runAux] at h
    cases h
    exact ⟨h1, h2, h3⟩
  | cons i rest ih =>
    intro st0 st1 h h1 h2 h3
    simp only [runAux] at h
    by_cases hb : qd.columns.length ≤ i
    · rw [if_pos hb] at h
      cases h
    · rw [if_neg hb] at h
      by_cases hs : i ∈ qd.single
      · rw [if_pos hs] at h
        have hv : qd.verdictOf pvalue i
            = some (analyze_question pvalue qd.min_count qd.significance_level
                qd.n_target_categories (qd.columns.getD i []) qd.target_column).verdict := by
          simp [QD.verdictOf, hs]
        have hrec := record_verdicts pvalue qd st0 i Branch.single _ hv h1 h2 h3
        exact ih _ _ h hrec.1 hrec.2.1 hrec.2.2
      · rw [if_neg hs] at h
        by_cases hm : i ∈ qd.multi
        · rw [if_pos hm] at h
          cases hconv : convert_multi_to_single qd.multi_delimiter
              ((qd.columns.getD i []).zip qd.target_column) with
          | error e =>
            rw [hconv] at h
            cases h
          | ok pairs =>
            rw [hconv] at h
            have hv : qd.verdictOf pvalue i
                = some (analyze_question pvalue qd.min_count qd.significance_level
                    qd.n_target_categories (pairs.map (fun pr => some pr.1))
                    (pairs.map Prod.snd)).verdict := by
              simp only [QD.verdictOf, if_neg hs, if_pos hm, hconv]
            have hrec := record_verdicts pvalue qd st0 i Branch.multi _ hv h1 h2 h3
            exact ih _ _ h hrec.1 hrec.2.1 hrec.2.2
        · rw [if_neg hm] at h
          exact ih _ _ h h1 h2 h3

theorem run_all_perm (pvalue : Rat → Int → Option Rat) (qd : QD) (st : Stats)
    (h : qd.run pvalue = Except.ok st) :
    st.all.Perm (qd.single ++ qd.multi) := by
  simp only [QD.run] at h
  have h1 := runAux_ok_all_perm pvalue qd (processOrder qd) _ st h
  have hfil : (processOrder qd).filter (testedB qd) = processOrder qd := by
    refine List.filter_eq_self.mpr ?_
    intro i hi
    have hmem : i ∈ qd.single ++ qd.multi :=
      (List.perm_insertionSort (· ≤ ·) (qd.single ++ qd.multi)).mem_iff.mp hi
    simp only [testedB, decide_eq_true_eq]
    exact List.mem_append.mp hmem
  rw [hfil] at h1
  have h2 : Stats.all { invalid := [], related := [], notRelated := [], trace := [] } = [] := rfl
  rw [h2] at h1
  simp only [List.nil_append] at h1
  exact h1.trans (List.perm_insertionSort (· ≤ ·) (qd.single ++ qd.multi))

/-! Concrete run evaluations used by the run-level results. -/

theorem verdict_1x1 (nc ntc : Nat) :
    (analyze_table pvalueConstOne 5 (1/10) nc ntc [[1]]).verdict = Verdict.invalid := by
  rw [analyze_table_gate_pos pvalueConstOne 5 (1/10) nc ntc [[1]] (by
    norm_num [anyBelow, n_expected_table, npDiv, npLtB, row_sums, col_sums, grand_total, addVec])]

theorem verdict_selftest :
    (analyze_question pvalueConstOne 5 (1/10) 1 [some ['Y']] [some ['Y']]).verdict
      = Verdict.invalid := by
  have hct : crosstab [some ['Y']] [some ['Y']] = [[1]] := by decide
  simp only [analyze_question, hct]
  exact verdict_1x1 _ _

theorem verdict_single_a :
    (analyze_question pvalueConstOne 5 (1/10) 1 [some ['A']] [some ['Y']]).verdict
      = Verdict.invalid := by
  have hct : crosstab [some ['A']] [some ['Y']] = [[1]] := by decide
  simp only [analyze_question, hct]
  exact verdict_1x1 _ _

theorem run_eval_selftest :
    (QD.mk [[some ['Y']]] 0 [0] [] [','] 5 (1/10)).run
        pvalueConstOne
      = Except.ok (Stats.mk [0] [] [] [(0, Branch.single)]) := by
  show Except.ok (({ invalid := [], related := [], notRelated := [], trace := [] } : Stats).record
      0 Branch.single
      ((analyze_question pvalueConstOne 5 (1/10) 1 [some ['Y']] [some ['Y']]).verdict)) = _
  rw [verdict_selftest]
  rfl

theorem run_eval_dup :
    (QD.mk [[some ['A']], [some ['Y']]] 1 [0] [0] [','] 5 (1/10)).run
        pvalueConstOne
      = Except.ok (Stats.mk [0, 0] [] [] [(0, Branch.single), (0, Branch.single)]) := by
  show Except.ok ((({ invalid := [], related := [], notRelated := [], trace := [] } : Stats).record
      0 Branch.single
      ((analyze_question pvalueConstOne 5 (1/10) 1 [some ['A']] [some ['Y']]).verdict)).record
      0 Branch.single
      ((analyze_question pvalueConstOne 5 (1/10) 1 [some ['A']] [some ['Y']]).verdict)) = _
  rw [verdict_single_a]
  rfl

/-- C3 (amended): run performs no exclusion of the target question: whenever
the target index is listed among the configured single- or multi-choice
indices and the run completes, the target has been tested against itself and
appears in one of the three summary sets. -/
theorem target_tested_when_configured (pvalue : Rat → Int → Option Rat) (qd : QD) (st : Stats)
    (h : qd.run pvalue = Except.ok st) (ht : qd.target ∈ qd.single ++ qd.multi) :
    qd.target ∈ st.all :=
  ((run_all_perm pvalue qd st h).mem_iff).mpr ht

/-- Witness for C3 (amended) at a one-column dataset whose only column is both
the target and a configured single-choice question. -/
theorem target_tested_when_configured_witness :
    (0 : Nat) ∈ Stats.all (Stats.mk [0] [] [] [(0, Branch.single)]) :=
  target_tested_when_configured pvalueConstOne
    (QD.mk [[some ['Y']]] 0 [0] [] [','] 5 (1/10))
    (Stats.mk [0] [] [] [(0, Branch.single)]) run_eval_selftest (by decide)

/-- C3 counterexample: with a single column that is both the target (index 0)
and a configured single-choice question, the run does test the target against
itself and the target index ends up in a summary set (here the invalid list,
the 1x1 expected count 1 being below min_count 5) - the claim says this never
happens. -/
theorem target_not_excluded_counterexample :
    (QD.mk [[some ['Y']]] 0 [0] [] [','] 5 (1/10)).target
      ∈ (QD.mk [[some ['Y']]] 0 [0] [] [','] 5 (1/10)).single
    ∧ Except.map Stats.all
        ((QD.mk [[some ['Y']]] 0 [0] [] [','] 5 (1/10)).run
          pvalueConstOne)
      = Except.ok [0] := by
  refine ⟨by decide, ?_⟩
  rw [run_eval_selftest]
  rfl

/-- C4 (amended): run iterates in ascending order over the sorted
concatenation sorted(single + multi) of the two configured index lists,
duplicates included: when the run completes, the concatenation of the three
summary lists is a permutation of single ++ multi (so an index listed in both
lists is processed and recorded twice, not once), the iteration order and the
recorded processing order are sorted, and no index is a member of two
different summary lists. -/
theorem run_summary_partition (pvalue : Rat → Int → Option Rat) (qd : QD) (st : Stats)
    (h : qd.run pvalue = Except.ok st) :
    st.all.Perm (qd.single ++ qd.multi)
    ∧ List.Sorted (· ≤ ·) (processOrder qd)
    ∧ List.Sorted (· ≤ ·) (st.trace.map Prod.fst)
    ∧ (∀ i, i ∈ st.invalid → i ∉ st.related ∧ i ∉ st.notRelated)
    ∧ (∀ i, i ∈ st.related → i ∉ st.notRelated) := by
  have hperm := run_all_perm pvalue qd st h
  have hsorted : List.Sorted (· ≤ ·) (processOrder qd) :=
    List.sorted_insertionSort (· ≤ ·) (qd.single ++ qd.multi)
  simp only [QD.run] at h
  have htrace := runAux_ok_trace pvalue qd (processOrder qd) _ st h
  have hverd := runAux_ok_verdicts pvalue qd (processOrder qd) _ st h
    (by intro j hj; cases hj) (by intro j hj; cases hj) (by intro j hj; cases hj)
  refine ⟨hperm, hsorted, ?_, ?_, ?_⟩
  · rw [htrace]
    simp only [List.nil_append, List.map_map]
    have hid : (Prod.fst ∘ fun i =>
        ((i : Nat), if i ∈ qd.single then Branch.single else Branch.multi)) = fun i => i := by
      funext i
      rfl
    rw [hid]
    have : ((processOrder qd).filter (testedB qd)).map (fun i => i)
        = (processOrder qd).filter (testedB qd) := List.map_id' _
    rw [this]
    exact List.Pairwise.filter _ hsorted
  · intro i hi
    constructor
    · intro hrel
      have e1 := hverd.1 i hi
      have e2 := hverd.2.1 i hrel
      rw [e1] at e2
      cases e2
    · intro hnr
      have e1 := hverd.1 i hi
      have e2 := hverd.2.2 i hnr
      rw [e1] at e2
      cases e2
  · intro i hi hnr
    have e1 := hverd.2.1 i hi
    have e2 := hverd.2.2 i hnr
    rw [e1] at e2
    cases e2

/-- Witness for C4 (amended) at a completed one-question run: the summary
lists concatenate to a permutation of single ++ multi and the processing
order is sorted. -/
theorem run_summary_partition_witness :
    (Stats.all (Stats.mk [0] [] [] [(0, Branch.single)])).Perm (([0] : List Nat) ++ [])
    ∧ List.Sorted (· ≤ ·) (processOrder
        (QD.mk [[some ['Y']]] 0 [0] [] [','] 5 (1/10))) := by
  have h := run_summary_partition pvalueConstOne
    (QD.mk [[some ['Y']]] 0 [0] [] [','] 5 (1/10))
    (Stats.mk [0] [] [] [(0, Branch.single)]) run_eval_selftest
  exact ⟨h.1, h.2.1⟩

/-- C4 counterexample: with index 0 configured in both the single- and the
multi-choice lists, sorted(single + multi) is [0, 0] and question 0 is
processed twice - both times through the single-choice branch - so index 0 is
recorded twice in the summary, refuting "each configured question index is
processed exactly once" under union semantics. -/
theorem duplicate_index_counterexample :
    (0 : Nat) ∈ (QD.mk [[some ['A']], [some ['Y']]] 1 [0] [0] [','] 5 (1/10)).single
    ∧ (0 : Nat) ∈ (QD.mk [[some ['A']], [some ['Y']]] 1 [0] [0] [','] 5 (1/10)).multi
    ∧ Except.map (fun st => (Stats.all st).count 0)
        ((QD.mk [[some ['A']], [some ['Y']]] 1 [0] [0] [','] 5 (1/10)).run
          pvalueConstOne)
      = Except.ok 2 := by
  refine ⟨by decide, by decide, ?_⟩
  rw [run_eval_dup]
  rfl

/-- C10: whenever a question index appears in the single-choice list, every
processing of it in a completed run goes through the single-choice branch -
membership in self.single is tested first (line 82), so the multi-choice
conversion is never invoked for it, even when the index also appears in the
multi-choice list. -/
theorem single_list_precedence (pvalue : Rat → Int → Option Rat) (qd : QD) (st : Stats)
    (h : qd.run pvalue = Except.ok st) :
    ∀ i ∈ qd.single, (i, Branch.multi) ∉ st.trace := by
  intro i hi hmem
  simp only [QD.run] at h
  have htr := runAux_ok_trace pvalue qd (processOrder qd) _ st h
  rw [htr] at hmem
  simp only [List.nil_append] at hmem
  rcases List.mem_map.mp hmem with ⟨j, hj, heq⟩
  have hj_eq : j = i := congrArg Prod.fst heq
  subst hj_eq
  rw [if_pos hi] at heq
  have hbr := congrArg Prod.snd heq
  cases hbr

/-- Witness for C10 at a run in which index 0 is listed both as single- and as
multi-choice and is processed twice: no processing of it took the multi-choice
branch. -/
theorem single_list_precedence_witness :
    ((0 : Nat), Branch.multi)
      ∉ (Stats.mk [0, 0] [] [] [(0, Branch.single), (0, Branch.single)]).trace :=
  single_list_precedence pvalueConstOne
    (QD.mk [[some ['A']], [some ['Y']]] 1 [0] [0] [','] 5 (1/10))
    (Stats.mk [0, 0] [] [] [(0, Branch.single), (0, Branch.single)]) run_eval_dup 0 (by decide)
